import Mathlib

/- Shallow embedding of the expected-filename derivation implemented in
   src/rules/file-name.js of eslint-plugin-angular.  Strings are modelled as
   lists of Unicode scalar values (Lean String); JavaScript string length,
   slice and indexOf are modelled at the character level, which agrees with
   the UTF-16 based JavaScript semantics on all strings without surrogate
   pairs.  Case mappings (toUpperCase, toLowerCase, and the regex classes
   [A-Z], [a-z]) are modelled on the ASCII range, matching the JavaScript
   behaviour on ASCII data, the domain of this rule (identifier names,
   policy tokens and filenames).  Fallible JavaScript operations (a method
   call on undefined, RegExp construction from an ill-formed pattern) are
   modelled with Option, where none represents a thrown exception. -/

/-- ASCII upper-case letter test, the model of the regex class [A-Z]. -/
def isAsciiUpper (c : Char) : Bool := 65 ≤ c.toNat && c.toNat ≤ 90

/-- ASCII lower-case letter test, the model of the regex class [a-z]. -/
def isAsciiLower (c : Char) : Bool := 97 ≤ c.toNat && c.toNat ≤ 122

/-- Model of toUpperCase on one character (ASCII range). -/
def jsToUpper (c : Char) : Char :=
  if isAsciiLower c then Char.ofNat (c.toNat - 32) else c

/-- Model of toLowerCase on one character (ASCII range). -/
def jsToLower (c : Char) : Char :=
  if isAsciiUpper c then Char.ofNat (c.toNat + 32) else c

/-- Model of String.prototype.toLowerCase (ASCII range). -/
def jsToLowerStr (s : String) : String := String.mk (s.data.map jsToLower)

/-- Smallest character index at which pat occurs in l, if any. -/
def firstOccurrence : List Char → List Char → Option Nat
  | [], pat => if pat.isPrefixOf ([] : List Char) then some 0 else none
  | c :: rest, pat =>
    if pat.isPrefixOf (c :: rest) then some 0
    else (firstOccurrence rest pat).map (fun i => i + 1)

/-- Model of String.prototype.indexOf: character index of the first
    occurrence, and -1 when there is none. -/
def jsIndexOf (s sub : String) : Int :=
  match firstOccurrence s.data sub.data with
  | some i => (i : Int)
  | none => -1

/-- filenameUtil.firstToUpper (source lines 36-38).  On the empty string the
    JS code evaluates undefined.toUpperCase() and throws, modelled by none. -/
def firstToUpper (value : String) : Option String :=
  match value.data with
  | [] => none
  | c :: cs => some (String.mk (jsToUpper c :: cs))

/-- filenameUtil.firstToLower (source lines 39-41).  On the empty string the
    JS code evaluates undefined.toLowerCase() and throws, modelled by none. -/
def firstToLower (value : String) : Option String :=
  match value.data with
  | [] => none
  | c :: cs => some (String.mk (jsToLower c :: cs))

/-- The fixed file extension (source line 15). -/
def fileEnding : String := ".js"

/-- A value read by property lookup on the separators object literal: an
    own entry (a one-character string), a truthy value inherited from
    Object.prototype, or undefined.  An inherited value is carried as the
    string it coerces to under string concatenation. -/
inductive JsRead where
  | own : Char → JsRead
  | proto : String → JsRead
  | undef : JsRead
  deriving DecidableEq

/-- String coercion of a read value, available exactly when the value is
    not undefined.  Every own or inherited value of this table is truthy,
    so the same discrimination also models the JS truthiness guard. -/
def JsRead.coerced : JsRead → Option String
  | JsRead.own c => some (String.mk [c])
  | JsRead.proto s => some s
  | JsRead.undef => none

/-- The string coercion, under the Node runtime that executes this ESLint
    rule, of each property inherited from Object.prototype: the built-in
    functions render as a native-function source string carrying their own
    name, and reading the accessor named with the dunder proto spelling
    yields Object.prototype itself, which renders as the object tag. -/
def objectProtoRendering (key : String) : Option String :=
  if key = "constructor" then some "function Object() \x7b [native code] \x7d"
  else if key = "hasOwnProperty" then some "function hasOwnProperty() \x7b [native code] \x7d"
  else if key = "isPrototypeOf" then some "function isPrototypeOf() \x7b [native code] \x7d"
  else if key = "propertyIsEnumerable" then some "function propertyIsEnumerable() \x7b [native code] \x7d"
  else if key = "toLocaleString" then some "function toLocaleString() \x7b [native code] \x7d"
  else if key = "toString" then some "function toString() \x7b [native code] \x7d"
  else if key = "valueOf" then some "function valueOf() \x7b [native code] \x7d"
  else if key = "__defineGetter__" then some "function __defineGetter__() \x7b [native code] \x7d"
  else if key = "__defineSetter__" then some "function __defineSetter__() \x7b [native code] \x7d"
  else if key = "__lookupGetter__" then some "function __lookupGetter__() \x7b [native code] \x7d"
  else if key = "__lookupSetter__" then some "function __lookupSetter__() \x7b [native code] \x7d"
  else if key = "__proto__" then some "[object Object]"
  else none

/-- The separators table (source lines 17-21).  JS property lookup on the
    object literal falls back to Object.prototype for every key that is not
    an own entry, so keys such as constructor or toString read truthy
    inherited values rather than undefined. -/
def separators (key : String) : JsRead :=
  if key = "dot" then JsRead.own '.'
  else if key = "dash" then JsRead.own '-'
  else if key = "underscore" then JsRead.own '_'
  else
    match objectProtoRendering key with
    | some s => JsRead.proto s
    | none => JsRead.undef

/-- Lookup of separators under an optional key: an absent option coerces to
    the property name undefined, which is neither an own entry nor a member
    of Object.prototype. -/
def sepOf (key : Option String) : JsRead :=
  match key with
  | some k => separators k
  | none => JsRead.undef

/-- The componentTypeMappings table (source lines 23-33), as own-property
    lookup. -/
def componentTypeMappings (kind : String) : Option String :=
  if kind = "module" then some "module"
  else if kind = "controller" then some "controller"
  else if kind = "directive" then some "directive"
  else if kind = "filter" then some "filter"
  else if kind = "service" then some "service"
  else if kind = "factory" then some "service"
  else if kind = "provider" then some "service"
  else if kind = "value" then some "service"
  else if kind = "constant" then some "constant"
  else none

/-- The recognized configuration options of the rule (context.options[0],
    source line 88, defaulting to the empty object).  The field
    ignorePrefixOpt models the JS option named ignorePrefix. -/
structure Options where
  nameStyle : Option String := none
  typeSeparator : Option String := none
  ignoreTypeSuffix : Bool := false
  ignorePrefixOpt : Option String := none

/-- A component declaration as extracted by the CallExpression handler:
    declaredName is node.arguments[0].value, kind is
    node.callee.property.name and declaringObjectName is
    node.callee.object.name. -/
structure Declaration where
  declaredName : String
  kind : String
  declaringObjectName : Option String

/-- The outcome of checking one declaration: pass is whether the expected
    filename equals the actual one, expected is the derived filename. -/
structure Verdict where
  pass : Bool
  expected : String
  deriving DecidableEq

/-- filenameUtil.removeTypeSuffix (source lines 42-52).  The JS code
    computes nameTypeLengthDiff = name.length - type.length, returns name
    when it is not positive, otherwise capitalizes type and slices off the
    suffix when name.indexOf(typeCamelCase) equals the difference.  With an
    empty type and a non-empty name, firstToUpper throws (none). -/
def removeTypeSuffix (name type : String) : Option String :=
  let nameTypeLengthDiff : Int := (name.length : Int) - (type.length : Int)
  if nameTypeLengthDiff ≤ 0 then some name
  else
    match firstToUpper type with
    | none => none
    | some typeCamelCase =>
      if jsIndexOf name typeCamelCase = nameTypeLengthDiff then
        some (String.mk (name.data.take (name.length - type.length)))
      else some name

/-- One atom of the regular-expression fragment the rule builds from the
    ignorePrefix option: a literal character or the wildcard dot. -/
inductive RegexAtom where
  | lit : Char → RegexAtom
  | any : RegexAtom
  deriving DecidableEq

/-- The characters with a special meaning in a JavaScript regular
    expression pattern. -/
def regexSpecialChars : List Char :=
  ['\\', '^', '$', '.', '*', '+', '?', '(', ')', '[', ']', '{', '}', '|']

/-- A character that stands for itself when embedded into a pattern. -/
def safeFragmentChar (c : Char) : Bool := !(regexSpecialChars.contains c)

/-- Reads one pattern character as an atom.  The wildcard dot matches any
    character; a plain character matches itself; the remaining special
    characters fall outside the modelled pattern subset (of these, the
    inputs used below, such as an unbalanced parenthesis, make the real
    RegExp constructor throw as well) and map to none. -/
def parseAtom (c : Char) : Option RegexAtom :=
  if c = '.' then some RegexAtom.any
  else if regexSpecialChars.contains c then none
  else some (RegexAtom.lit c)

/-- Reads a whole pattern fragment as a list of atoms. -/
def parseFragment : List Char → Option (List RegexAtom)
  | [] => some []
  | c :: cs =>
    match parseAtom c, parseFragment cs with
    | some a, some as => some (a :: as)
    | _, _ => none

/-- The wildcard dot of a JavaScript pattern matches every character except
    the four line terminators. -/
def dotMatches (c : Char) : Bool :=
  !(c == '\n' || c == '\r' || c.toNat == 0x2028 || c.toNat == 0x2029)

/-- Whether one atom matches one character. -/
def atomMatches : RegexAtom → Char → Bool
  | RegexAtom.lit a, c => a == c
  | RegexAtom.any, c => dotMatches c

/-- Whether the anchored pattern, atoms followed by the class [A-Z],
    matches at the start of the character list. -/
def matchAtomsUpper : List RegexAtom → List Char → Bool
  | [], [] => false
  | [], c :: _ => isAsciiUpper c
  | _ :: _, [] => false
  | a :: as, c :: cs => atomMatches a c && matchAtomsUpper as cs

/-- filenameUtil.removePrefix (source lines 53-58).  The JS code tests
    name against the regular expression built from the pattern string
    that concatenates a caret, options.ignorePrefix and the class [A-Z];
    on a match it lower-cases the first letter of the name sliced past
    options.ignorePrefix.length.  The Lean name avoids clashing with the
    reserved word used by the JS method name. -/
def removePrefixUtil (name p : String) : Option String :=
  match parseFragment p.data with
  | none => none
  | some atoms =>
    if matchAtomsUpper atoms name.data then
      firstToLower (String.mk (name.data.drop p.length))
    else some name

/-- One step of the global replacement of the pattern ([a-z])([A-Z]) by
    first group, separator, second group.  Matching resumes behind each
    replaced pair; since the second matched character is upper-case it can
    never start another match, so the one-pass recursion below computes the
    same result. -/
def camelBoundaryReplaceStr (sep : List Char) : List Char → List Char
  | [] => []
  | [c] => [c]
  | a :: b :: rest =>
    if isAsciiLower a && isAsciiUpper b then
      a :: (sep ++ camelBoundaryReplaceStr sep (b :: rest))
    else a :: camelBoundaryReplaceStr sep (b :: rest)

/-- filenameUtil.transformComponentName (source lines 59-67): when the
    separators lookup of the nameStyle option is truthy (an own separator
    character or a value inherited from Object.prototype), its string
    coercion is spliced into the replacement between the two groups and the
    camelCase boundaries are rewritten with it, and the whole result is
    lower-cased; none of the possible coercions contains a dollar sign, so
    the replacement text is inserted verbatim. -/
def transformComponentName (name : String) (options : Options) : String :=
  match (sepOf options.nameStyle).coerced with
  | some s => jsToLowerStr (String.mk (camelBoundaryReplaceStr s.data name.data))
  | none => name

/-- filenameUtil.createExpectedName (source lines 68-84), sequencing the
    three normalization steps under their option guards and appending the
    separator, the type token and the file extension.  The check on line 80
    is against undefined, so an own separator character as well as a value
    inherited from Object.prototype is appended via string concatenation. -/
def createExpectedName (name type : String) (options : Options) : Option String :=
  let typeSeparator := sepOf options.typeSeparator
  match (if options.ignoreTypeSuffix then removeTypeSuffix name type else some name) with
  | none => none
  | some name1 =>
    match (match options.ignorePrefixOpt with
           | some p => if p.length > 0 then removePrefixUtil name1 p else some name1
           | none => some name1) with
    | none => none
    | some name2 =>
      let name3 :=
        match options.nameStyle with
        | some st => if st.length > 0 then transformComponentName name2 options else name2
        | none => name2
      match typeSeparator.coerced with
      | some s => some (name3 ++ s ++ type ++ fileEnding)
      | none => some (name3 ++ fileEnding)

/-- The CallExpression handler (source lines 93-111) restricted to the
    checking logic: map the kind through componentTypeMappings (an unmapped
    kind is skipped), skip service registrations on the reserved object
    named $provide, otherwise build the expected name and compare it with
    the actual filename.  The outer Option is a thrown exception, the inner
    Option none is a skipped declaration. -/
def evaluate (d : Declaration) (filename : String) (options : Options) :
    Option (Option Verdict) :=
  match componentTypeMappings d.kind with
  | none => some none
  | some type =>
    if type = "service" ∧ d.declaringObjectName = some "$provide" then some none
    else
      match createExpectedName d.declaredName type options with
      | none => none
      | some expectedName =>
        some (some { pass := expectedName == filename, expected := expectedName })

/-- Capitalization of the first letter as a total function, used by the
    reference description of suffix stripping. -/
def capitalizeFirst (s : String) : String :=
  match s.data with
  | [] => ""
  | c :: cs => String.mk (jsToUpper c :: cs)

/-- Reference description of suffix stripping: strip exactly when the first
    occurrence of the capitalized type token sits at position
    name.length - type.length. -/
def stripTypeSuffixRef (name type : String) : String :=
  if (name.length : Int) - (type.length : Int) ≤ 0 then name
  else if firstOccurrence name.data (capitalizeFirst type).data
      = some (name.length - type.length) then
    String.mk (name.data.take (name.length - type.length))
  else name

theorem removeTypeSuffix_eq (name type : String) (h : type ≠ "") :
    removeTypeSuffix name type = some (stripTypeSuffixRef name type) := by
  obtain ⟨c, cs, hdata⟩ : ∃ c cs, type.data = c :: cs := by
    cases hd : type.data with
    | nil =>
      exfalso
      apply h
      cases type
      simp_all
    | cons c cs => exact ⟨c, cs, rfl⟩
  simp only [removeTypeSuffix, stripTypeSuffixRef]
  by_cases hle : (name.length : Int) - (type.length : Int) ≤ 0
  · rw [if_pos hle, if_pos hle]
  · rw [if_neg hle, if_neg hle]
    have hft : firstToUpper type = some (String.mk (jsToUpper c :: cs)) := by
      simp [firstToUpper, hdata]
    have hcap : (capitalizeFirst type).data = jsToUpper c :: cs := by
      simp [capitalizeFirst, hdata]
    rw [hft, hcap]
    have hlen : type.length < name.length := by
      simp only [not_le] at hle
      omega
    dsimp only [jsIndexOf]
    cases hocc : firstOccurrence name.data (jsToUpper c :: cs) with
    | none =>
      dsimp only
      rw [if_neg (by omega), if_neg (by simp)]
    | some i =>
      dsimp only
      by_cases hi : i = name.length - type.length
      · rw [if_pos (by omega), if_pos (by rw [hi])]
      · rw [if_neg (by omega), if_neg (by simp [hi])]

theorem parseFragment_lits (p : List Char) (hp : p.all safeFragmentChar = true) :
    parseFragment p = some (p.map RegexAtom.lit) := by
  induction p with
  | nil => rfl
  | cons c cs ih =>
    rw [List.all_cons, Bool.and_eq_true] at hp
    obtain ⟨hc, hcs⟩ := hp
    have hdot : ¬c = '.' := by
      intro hc2
      rw [hc2] at hc
      simp [safeFragmentChar, regexSpecialChars] at hc
    have hmem : ¬ c ∈ regexSpecialChars := by
      simp only [safeFragmentChar, Bool.not_eq_true'] at hc
      simpa using hc
    simp [parseFragment, parseAtom, hdot, hmem, ih hcs]

theorem matchAtomsUpper_lits (p : List Char) : ∀ l : List Char,
    matchAtomsUpper (p.map RegexAtom.lit) l =
      (p.isPrefixOf l &&
        match l.drop p.length with
        | [] => false
        | c :: _ => isAsciiUpper c) := by
  induction p with
  | nil =>
    intro l
    cases l with
    | nil => rfl
    | cons c cs => rfl
  | cons a as ih =>
    intro l
    cases l with
    | nil => rfl
    | cons c cs =>
      simp only [List.map_cons, matchAtomsUpper, atomMatches,
        List.isPrefixOf_cons₂, List.length_cons, List.drop_succ_cons, ih cs]
      cases hac : a == c <;> simp

/-- Reference description of prefix stripping with the option taken as a
    literal string: strip exactly when the name literally begins with the
    prefix immediately followed by an ASCII upper-case letter, and
    lower-case the letter that becomes first. -/
def stripPrefixRef (name p : String) : String :=
  match name.data.drop p.length with
  | [] => name
  | c :: cs =>
    if p.data.isPrefixOf name.data && isAsciiUpper c then
      String.mk (jsToLower c :: cs)
    else name

theorem removePrefixUtil_safe (name p : String)
    (hp : p.data.all safeFragmentChar = true) :
    removePrefixUtil name p = some (stripPrefixRef name p) := by
  unfold removePrefixUtil stripPrefixRef
  rw [parseFragment_lits p.data hp]
  dsimp only
  rw [matchAtomsUpper_lits]
  have hl : p.length = p.data.length := rfl
  rw [← hl]
  cases hdrop : name.data.drop p.length with
  | nil => simp
  | cons c cs =>
    dsimp only
    by_cases hb : (p.data.isPrefixOf name.data && isAsciiUpper c) = true
    · rw [if_pos hb, if_pos hb]
      rfl
    · rw [if_neg hb, if_neg hb]

theorem charToNat_ofNat (n : Nat) (h : n < 55296) : (Char.ofNat n).toNat = n := by
  have hv : Nat.isValidChar n := Or.inl h
  simp [Char.ofNat, hv, Char.ofNatAux, Char.toNat, UInt32.toNat]

theorem jsToLower_not_upper (c : Char) : isAsciiUpper (jsToLower c) = false := by
  by_cases h : isAsciiUpper c = true
  · have hb : 65 ≤ c.toNat ∧ c.toNat ≤ 90 := by
      have h2 := h
      unfold isAsciiUpper at h2
      simpa using h2
    have hlow : jsToLower c = Char.ofNat (c.toNat + 32) := by
      unfold jsToLower
      rw [if_pos h]
    rw [hlow]
    unfold isAsciiUpper
    rw [charToNat_ofNat _ (by omega)]
    have hnot : ¬(c.toNat + 32 ≤ 90) := by omega
    simp [hnot]
  · have hb : jsToLower c = c := by
      unfold jsToLower
      rw [if_neg h]
    rw [hb]
    exact Bool.eq_false_iff.mpr h

theorem jsToLower_fix (c : Char) (h : isAsciiUpper c = false) : jsToLower c = c := by
  unfold jsToLower
  rw [if_neg (by simp [h])]

theorem camelBoundaryReplaceStr_fix (sep : List Char) (l : List Char)
    (h : ∀ c ∈ l, isAsciiUpper c = false) : camelBoundaryReplaceStr sep l = l := by
  induction l with
  | nil => rfl
  | cons a t ih =>
    cases t with
    | nil => rfl
    | cons b r =>
      have hb : isAsciiUpper b = false := h b (by simp)
      have ht : ∀ c ∈ b :: r, isAsciiUpper c = false := by
        intro c hc
        exact h c (List.mem_cons_of_mem a hc)
      rw [camelBoundaryReplaceStr, if_neg (by simp [hb]), ih ht]

/-- The characters contributed by one adjacent pair in the reference
    description of case conversion: the separator fragment is inserted
    before the second character of every lower-to-upper boundary. -/
def boundarySegmentStr (sep : List Char) (q : Char × Char) : List Char :=
  if isAsciiLower q.1 && isAsciiUpper q.2 then sep ++ [q.2] else [q.2]

/-- Character-list form of the reference description: keep the first
    character and emit every later character behind an optional separator
    fragment. -/
def insertSepsStr (sep : List Char) (l : List Char) : List Char :=
  match l with
  | [] => []
  | c :: rest => c :: ((c :: rest).zip rest).flatMap (boundarySegmentStr sep)

/-- Reference description of case conversion: insert the coerced separator
    fragment at every lower-to-upper boundary, then lower-case the entire
    result. -/
def convertCaseSpecStr (sep : String) (name : String) : String :=
  jsToLowerStr (String.mk (insertSepsStr sep.data name.data))

theorem camelBoundaryReplaceStr_eq_insertSepsStr (sep : List Char) :
    ∀ l : List Char, camelBoundaryReplaceStr sep l = insertSepsStr sep l := by
  have aux : ∀ (t : List Char) (c : Char),
      camelBoundaryReplaceStr sep (c :: t) =
        c :: ((c :: t).zip t).flatMap (boundarySegmentStr sep) := by
    intro t
    induction t with
    | nil =>
      intro c
      rfl
    | cons b r ih =>
      intro c
      rw [camelBoundaryReplaceStr, List.zip_cons_cons, List.flatMap_cons, ih b]
      by_cases hb : (isAsciiLower c && isAsciiUpper b) = true
      · rw [if_pos hb]
        simp [boundarySegmentStr, hb]
      · rw [if_neg hb]
        simp only [boundarySegmentStr, Bool.not_eq_true] at hb ⊢
        simp [hb]
  intro l
  cases l with
  | nil => rfl
  | cons c t =>
    rw [aux t c]
    rfl

theorem transformComponentName_fix (name : String) (o : Options)
    (h : ∀ c ∈ name.data, isAsciiUpper c = false) :
    transformComponentName name o = name := by
  unfold transformComponentName
  cases hsep : (sepOf o.nameStyle).coerced with
  | none => rfl
  | some s =>
    dsimp only
    rw [camelBoundaryReplaceStr_fix s.data name.data h]
    unfold jsToLowerStr
    have hmap : name.data.map jsToLower = name.data := by
      have h2 := List.map_congr_left (fun c hc => jsToLower_fix c (h c hc))
      simpa using h2
    show String.mk ((String.mk name.data).data.map jsToLower) = name
    rw [show (String.mk name.data).data = name.data from rfl, hmap]

theorem transformComponentName_no_upper (name : String) (o : Options) (s : String)
    (hsep : (sepOf o.nameStyle).coerced = some s) :
    ∀ c ∈ (transformComponentName name o).data, isAsciiUpper c = false := by
  unfold transformComponentName
  rw [hsep]
  dsimp only
  intro c hc
  unfold jsToLowerStr at hc
  rw [show (String.mk ((String.mk
    (camelBoundaryReplaceStr s.data name.data)).data.map jsToLower)).data =
    (camelBoundaryReplaceStr s.data name.data).map jsToLower from rfl] at hc
  obtain ⟨a, ha, rfl⟩ := List.mem_map.mp hc
  exact jsToLower_not_upper a

/-- The name-normalization pipeline of the specification (steps 3 to 5 of
    the ExpectedNameBuilder): optional suffix strip, optional prefix strip,
    optional case conversion, without the final assembly. -/
def normalizeNameSpec (name type : String) (o : Options) : Option String :=
  match (if o.ignoreTypeSuffix then removeTypeSuffix name type else some name) with
  | none => none
  | some name1 =>
    match (match o.ignorePrefixOpt with
           | some p => if p.length > 0 then removePrefixUtil name1 p else some name1
           | none => some name1) with
    | none => none
    | some name2 =>
      some (match o.nameStyle with
            | some st => if st.length > 0 then transformComponentName name2 o else name2
            | none => name2)

/-- C1 (amended): for every name and non-empty typeToken, removeTypeSuffix
    returns name unchanged when name.length is at most typeToken.length;
    otherwise it capitalizes the first letter of typeToken and returns the
    prefix of name before position name.length - typeToken.length exactly
    when the FIRST occurrence of the capitalized token in name is at that
    position, returning name unchanged otherwise.  Ending with the
    capitalized token is not sufficient when the token also occurs earlier
    in the name. -/
theorem removeTypeSuffix_ref (name type : String) (h : type ≠ "") :
    removeTypeSuffix name type = some (stripTypeSuffixRef name type) :=
  removeTypeSuffix_eq name type h

theorem removeTypeSuffix_ref_witness :
    removeTypeSuffix "avengersService" "service" = some "avengers" ∧
    stripTypeSuffixRef "avengersService" "service" = "avengers" :=
  ⟨(removeTypeSuffix_ref "avengersService" "service" (by decide)).trans (by decide),
   by decide⟩

/-- C1 counterexample: the name ServiceFooService ends with the capitalized
    token Service at position 10 = 17 - 7, yet removeTypeSuffix returns it
    unchanged, because the first occurrence of Service is at position 0; the
    claim as stated demands the stripped prefix ServiceFoo. -/
theorem removeTypeSuffix_firstOccurrence_cex :
    removeTypeSuffix "ServiceFooService" "service" = some "ServiceFooService" ∧
    capitalizeFirst "service" = "Service" ∧
    String.mk (("ServiceFooService" : String).data.drop 10) = "Service" ∧
    ("ServiceFooService" : String).length = 17 ∧
    ("service" : String).length = 7 ∧
    ("ServiceFooService" : String) ≠ "ServiceFoo" := by
  refine ⟨by decide, by decide, by decide, by decide, by decide, by decide⟩

/-- C10: every produced result of removeTypeSuffix is a prefix of the input
    name: either the whole name unchanged, or exactly the first
    name.length - typeToken.length characters of name; the kept characters
    are never altered, reordered or re-cased, and at most one suffix
    occurrence is removed. -/
theorem removeTypeSuffix_sliceOnly (name type r : String)
    (h : removeTypeSuffix name type = some r) :
    List.IsPrefix r.data name.data ∧
      (r = name ∨ r = String.mk (name.data.take (name.length - type.length))) := by
  simp only [removeTypeSuffix] at h
  split at h
  · obtain rfl : name = r := Option.some.inj h
    exact ⟨List.prefix_refl _, Or.inl rfl⟩
  · cases hft : firstToUpper type with
    | none =>
      rw [hft] at h
      cases h
    | some t =>
      rw [hft] at h
      dsimp only at h
      split at h
      · obtain rfl : String.mk (name.data.take (name.length - type.length)) = r :=
          Option.some.inj h
        exact ⟨List.take_prefix _ _, Or.inr rfl⟩
      · obtain rfl : name = r := Option.some.inj h
        exact ⟨List.prefix_refl _, Or.inl rfl⟩

theorem removeTypeSuffix_sliceOnly_witness :
    List.IsPrefix ("foo" : String).data ("fooController" : String).data ∧
    (("foo" : String) = "fooController" ∨ ("foo" : String) =
      String.mk (("fooController" : String).data.take
        (("fooController" : String).length - ("controller" : String).length))) :=
  removeTypeSuffix_sliceOnly "fooController" "controller" "foo" (by decide)

/-- C3 (amended): when the prefix token consists only of characters with no
    special regular-expression meaning, stripPrefix strips exactly when the
    name literally begins with the prefix immediately followed by an ASCII
    upper-case letter, removing the prefix and lower-casing the new first
    letter, and returns the name unchanged in every other case.  In general
    the option is interpreted as a regular-expression fragment, not as a
    literal string. -/
theorem removePrefixUtil_literal (name p : String)
    (hp : p.data.all safeFragmentChar = true) :
    removePrefixUtil name p = some (stripPrefixRef name p) :=
  removePrefixUtil_safe name p hp

theorem removePrefixUtil_literal_witness :
    removePrefixUtil "stAppUtils" "st" = some "appUtils" ∧
    removePrefixUtil "staging" "st" = some "staging" :=
  ⟨(removePrefixUtil_literal "stAppUtils" "st" (by decide)).trans (by decide),
   (removePrefixUtil_literal "staging" "st" (by decide)).trans (by decide)⟩

/-- C3 counterexample: with the option string a followed by a dot, the name
    axB does not literally begin with that prefix token, yet the rule
    strips it because the dot is interpreted as the regular-expression
    wildcard: the result is b, while the claim as stated demands the
    unchanged name axB. -/
theorem removePrefixUtil_pattern_cex :
    removePrefixUtil "axB" "a." = some "b" ∧
    ("a." : String).data.isPrefixOf ("axB" : String).data = false ∧
    some "b" ≠ some ("axB" : String) := by
  refine ⟨by decide, by decide, by decide⟩

/-- Whether the ignorePrefix option, when present, is free of special
    regular-expression characters. -/
def safePrefixOpt (o : Options) : Bool :=
  match o.ignorePrefixOpt with
  | some p => p.data.all safeFragmentChar
  | none => true

/-- C2 (amended): for every declared name, every type token from the kind
    table and every policy whose ignorePrefix is absent or free of special
    regular-expression characters, createExpectedName returns a
    well-defined string and never faults.  Totality over arbitrary
    ignorePrefix strings fails, because the option is compiled into a
    regular expression whose construction can throw. -/
theorem createExpectedName_total (name kind type : String) (o : Options)
    (hk : componentTypeMappings kind = some type)
    (hp : safePrefixOpt o = true) :
    ∃ s, createExpectedName name type o = some s := by
  have htype : type ≠ "" := by
    unfold componentTypeMappings at hk
    split_ifs at hk <;> simp_all <;> (rw [← hk]; decide)
  have h1 : ∃ n1, (if o.ignoreTypeSuffix then removeTypeSuffix name type
      else some name) = some n1 := by
    cases o.ignoreTypeSuffix with
    | false => exact ⟨name, rfl⟩
    | true =>
      refine ⟨stripTypeSuffixRef name type, ?_⟩
      simp [removeTypeSuffix_eq name type htype]
  obtain ⟨n1, h1⟩ := h1
  have h2 : ∃ n2, (match o.ignorePrefixOpt with
      | some p => if p.length > 0 then removePrefixUtil n1 p else some n1
      | none => some n1) = some n2 := by
    cases hpre : o.ignorePrefixOpt with
    | none => exact ⟨n1, rfl⟩
    | some p =>
      by_cases hlen : p.length > 0
      · refine ⟨stripPrefixRef n1 p, ?_⟩
        have hsafe : p.data.all safeFragmentChar = true := by
          unfold safePrefixOpt at hp
          rw [hpre] at hp
          exact hp
        dsimp only
        rw [if_pos hlen]
        exact removePrefixUtil_safe n1 p hsafe
      · refine ⟨n1, ?_⟩
        dsimp only
        rw [if_neg hlen]
  obtain ⟨n2, h2⟩ := h2
  simp only [createExpectedName]
  rw [h1]
  dsimp only
  rw [h2]
  dsimp only
  cases hsep : (sepOf o.typeSeparator).coerced with
  | some s => exact ⟨_, rfl⟩
  | none => exact ⟨_, rfl⟩

theorem createExpectedName_total_witness :
    ∃ s, createExpectedName "xpAssetService" "service"
      { typeSeparator := some "dot", ignoreTypeSuffix := true,
        ignorePrefixOpt := some "xp" } = some s :=
  createExpectedName_total "xpAssetService" "factory" "service"
    { typeSeparator := some "dot", ignoreTypeSuffix := true,
      ignorePrefixOpt := some "xp" } (by decide) (by decide)

/-- C2 counterexample: with the policy whose ignorePrefix is a lone opening
    parenthesis, the rule builds an ill-formed regular expression and the
    RegExp constructor throws, so createExpectedName faults for a type
    token from the kind table: the builder is not total over arbitrary
    ignorePrefix strings. -/
theorem createExpectedName_fault_cex :
    componentTypeMappings "service" = some "service" ∧
    createExpectedName "someService" "service"
      { ignorePrefixOpt := some "(" } = none := by
  refine ⟨by decide, by decide⟩

/-- C4 (amended): the built expected filename is the normalized name, the
    string coercion of the separators lookup of policy.typeSeparator, the
    type token and the fixed extension whenever that lookup is not
    undefined, and the normalized name plus the extension alone exactly
    when the lookup is undefined, which happens for an absent typeSeparator
    and for every unrecognized key that is NOT a property inherited from
    Object.prototype; an inherited key such as constructor passes the
    check against undefined, so its rendering and the type token are
    appended.  The two concrete compositions of the specification hold. -/
theorem createExpectedName_assembly :
    (∀ (name type : String) (o : Options),
        createExpectedName name type o =
          (normalizeNameSpec name type o).map (fun n =>
            match (sepOf o.typeSeparator).coerced with
            | some s => n ++ s ++ type ++ fileEnding
            | none => n ++ fileEnding)) ∧
    (∀ (k : String), (sepOf (some k)).coerced =
        (if k = "dot" then some "."
         else if k = "dash" then some "-"
         else if k = "underscore" then some "_"
         else objectProtoRendering k)) ∧
    (sepOf none).coerced = none ∧
    createExpectedName "myFilter" "filter" {} = some "myFilter.js" ∧
    createExpectedName "myFilter" "filter" { typeSeparator := some "dot" } =
      some "myFilter.filter.js" := by
  refine ⟨?_, ?_, rfl, by decide, by decide⟩
  · intro name type o
    simp only [createExpectedName, normalizeNameSpec]
    cases h1 : (if o.ignoreTypeSuffix then removeTypeSuffix name type
        else some name) with
    | none => rfl
    | some n1 =>
      dsimp only
      cases h2 : (match o.ignorePrefixOpt with
          | some p => if p.length > 0 then removePrefixUtil n1 p else some n1
          | none => some n1) with
      | none => rfl
      | some n2 =>
        dsimp only [Option.map]
        cases hsep : (sepOf o.typeSeparator).coerced with
        | some s => rfl
        | none => rfl
  · intro k
    simp only [sepOf, separators]
    split_ifs with h1 h2 h3
    · rfl
    · rfl
    · rfl
    · cases hk : objectProtoRendering k with
      | none => rfl
      | some s => rfl

/-- C4 counterexample: with typeSeparator set to the inherited key
    constructor, the separators lookup yields the Object function, which is
    not undefined, so its string rendering and the type token are appended:
    the result is not the name plus the extension alone, refuting the
    claim's clause for arbitrary unrecognized keys. -/
theorem createExpectedName_proto_sep_cex :
    createExpectedName "myFilter" "filter"
      { typeSeparator := some "constructor" } =
      some "myFilterfunction Object() \x7b [native code] \x7dfilter.js" ∧
    createExpectedName "myFilter" "filter"
      { typeSeparator := some "constructor" } ≠
      some ("myFilter" ++ fileEnding) := by
  refine ⟨by decide, by decide⟩

/-- C6 (amended): transformComponentName equals the reference definition
    driven by the separators lookup: whenever the lookup of nameStyle is
    truthy, its string coercion is inserted at every boundary where an
    ASCII lower-case letter is directly followed by an ASCII upper-case
    letter, in a single global pass, and the entire result is then
    lower-cased; the name is returned unchanged exactly when the lookup is
    undefined, that is for an absent nameStyle or an unrecognized key that
    is not inherited from Object.prototype.  For the three recognized keys
    the coercion is the single separator character; for an inherited key
    such as constructor the truthy inherited value is coerced and inserted,
    so the name is NOT returned unchanged. -/
theorem transformComponentName_ref (name : String) (o : Options) :
    transformComponentName name o =
      match (sepOf o.nameStyle).coerced with
      | some s => convertCaseSpecStr s name
      | none => name := by
  unfold transformComponentName convertCaseSpecStr
  cases hsep : (sepOf o.nameStyle).coerced with
  | none => rfl
  | some s =>
    dsimp only
    rw [camelBoundaryReplaceStr_eq_insertSepsStr]

/-- C6 counterexample: with nameStyle set to the inherited key constructor,
    the lookup is the truthy Object function, so the name aB is rewritten
    at its boundary with the rendering of that function and lower-cased,
    rather than returned unchanged as the claim states for unmapped
    keys. -/
theorem transformComponentName_proto_cex :
    transformComponentName "aB" { nameStyle := some "constructor" } =
      "afunction object() \x7b [native code] \x7db" ∧
    transformComponentName "aB" { nameStyle := some "constructor" } ≠ "aB" := by
  refine ⟨by decide, by decide⟩

/-- C7: case conversion is a no-op on names already in the target separator
    style (in particular on every name without an ASCII upper-case letter,
    which covers all fully lower-cased, separator-joined names), and
    applying it twice with the same policy equals applying it once. -/
theorem convertCase_idem :
    (∀ (name : String) (o : Options),
        (∀ c ∈ name.data, isAsciiUpper c = false) →
        transformComponentName name o = name) ∧
    (∀ (name : String) (o : Options),
        transformComponentName (transformComponentName name o) o =
          transformComponentName name o) := by
  constructor
  · exact fun name o h => transformComponentName_fix name o h
  · intro name o
    cases hsep : (sepOf o.nameStyle).coerced with
    | none =>
      have h1 : transformComponentName name o = name := by
        unfold transformComponentName
        rw [hsep]
      rw [h1]
      exact h1
    | some s =>
      exact transformComponentName_fix _ o
        (transformComponentName_no_upper name o s hsep)

theorem convertCase_idem_witness :
    transformComponentName "my-app" { nameStyle := some "dash" } = "my-app" :=
  convertCase_idem.1 "my-app" { nameStyle := some "dash" } (by decide)

/-- C5: a declaration whose kind maps to the type token service (the kinds
    service, factory, provider and value) and whose declaring object is
    named $provide is skipped entirely: no expected name is computed and no
    verdict is produced, regardless of the actual filename and of the
    policy. -/
theorem evaluate_provide_skip (d : Declaration) (fn : String) (o : Options)
    (h1 : d.kind ∈ ["service", "factory", "provider", "value"])
    (h2 : d.declaringObjectName = some "$provide") :
    evaluate d fn o = some none := by
  obtain ⟨dn, dk, dobj⟩ := d
  simp only [List.mem_cons, List.not_mem_nil, or_false] at h1
  simp only at h2
  rcases h1 with rfl | rfl | rfl | rfl <;>
    simp [evaluate, componentTypeMappings, h2]

theorem evaluate_provide_skip_witness :
    evaluate ⟨"accountsService", "value", some "$provide"⟩
      "completely-unrelated.js" { typeSeparator := some "dot" } = some none :=
  evaluate_provide_skip ⟨"accountsService", "value", some "$provide"⟩
    "completely-unrelated.js" { typeSeparator := some "dot" } (by decide) rfl

/-- C8: the kind table maps module, controller, directive, filter and
    constant to themselves and service, factory, provider and value all to
    the token service, so the whole checking pipeline treats the latter
    four kinds identically; in particular the expected filename for
    someUtil with the service token under a dash typeSeparator is
    someUtil-service.js. -/
theorem kindTable_collapse :
    (componentTypeMappings "module" = some "module" ∧
      componentTypeMappings "controller" = some "controller" ∧
      componentTypeMappings "directive" = some "directive" ∧
      componentTypeMappings "filter" = some "filter" ∧
      componentTypeMappings "service" = some "service" ∧
      componentTypeMappings "factory" = some "service" ∧
      componentTypeMappings "provider" = some "service" ∧
      componentTypeMappings "value" = some "service" ∧
      componentTypeMappings "constant" = some "constant") ∧
    (∀ (n fn : String) (obj : Option String) (o : Options),
        evaluate ⟨n, "factory", obj⟩ fn o = evaluate ⟨n, "service", obj⟩ fn o ∧
        evaluate ⟨n, "provider", obj⟩ fn o = evaluate ⟨n, "service", obj⟩ fn o ∧
        evaluate ⟨n, "value", obj⟩ fn o = evaluate ⟨n, "service", obj⟩ fn o) ∧
    createExpectedName "someUtil" "service" { typeSeparator := some "dash" } =
      some "someUtil-service.js" := by
  refine ⟨by decide, ?_, by decide⟩
  intro n fn obj o
  exact ⟨rfl, rfl, rfl⟩

/-- C9: for every non-excluded declaration, actual filename base and
    policy for which the builder produces an expected name, the produced
    verdict carries that expected name and passes exactly when it equals
    the actual filename base character for character. -/
theorem evaluate_verdict (d : Declaration) (fn : String) (o : Options)
    (type e : String)
    (h1 : componentTypeMappings d.kind = some type)
    (h2 : ¬(type = "service" ∧ d.declaringObjectName = some "$provide"))
    (h3 : createExpectedName d.declaredName type o = some e) :
    evaluate d fn o = some (some { pass := e == fn, expected := e }) ∧
      ((e == fn) = true ↔ e = fn) := by
  constructor
  · simp only [evaluate, h1]
    rw [if_neg h2, h3]
  · exact beq_iff_eq

theorem evaluate_verdict_witness :
    evaluate ⟨"myFilter", "filter", none⟩ "filters.js" {} =
      some (some { pass := false, expected := "myFilter.js" }) := by
  have h := evaluate_verdict ⟨"myFilter", "filter", none⟩ "filters.js" {}
    "filter" "myFilter.js" (by decide) (by decide) (by decide)
  exact h.1.trans (by decide)
